import Mathlib

/-!
Verification of the tmux command-execution core of claude-code-tools.

Shallow embedding of:
  * src/claude_code_tools/tmux_execution_helpers.py
    (generate_execution_markers, wrap_command_with_markers, parse_marked_output)
  * src/claude_code_tools/tmux_cli_controller.py
    (generate_window_name, create_window, resolve_window_identifier,
     list_tmux_cli_windows, kill_window, wait_for_idle)

Python strings are modeled as `List Char` (ASCII fragment), Python `int` as
`Int`/`Nat`, wall-clock times as `ℚ`, and the external tmux process as an
explicit world value.  Each Python string primitive used by the code
(`find`, `rfind`, `in`, slicing, `rstrip`, `split`, `int()`, `isdigit`,
`startswith`) gets its own executable model below.
-/

abbrev PyStr := List Char

/-- Bool test that `pat` is a prefix of `s`; models Python `str.startswith`
and is the matching primitive under `str.find` / `str.rfind`. -/
def startsWithL : PyStr → PyStr → Bool
  | [], _ => true
  | _ :: _, [] => false
  | p :: ps, c :: cs => p = c && startsWithL ps cs

/-- Index of the first occurrence of `needle` in `hay`; models Python
`hay.find(needle)`, with `none` standing for the `-1` sentinel. -/
def firstOccur (needle : PyStr) : PyStr → Option Nat
  | [] => if startsWithL needle [] then some 0 else none
  | c :: t =>
    if startsWithL needle (c :: t) then some 0
    else (firstOccur needle t).map (· + 1)

/-- Index of the last occurrence of `needle` in `hay`; models Python
`hay.rfind(needle)`, with `none` standing for the `-1` sentinel. -/
def lastOccur (needle : PyStr) : PyStr → Option Nat
  | [] => if startsWithL needle [] then some 0 else none
  | c :: t =>
    match lastOccur needle t with
    | some i => some (i + 1)
    | none => if startsWithL needle (c :: t) then some 0 else none

/-- Python substring membership `needle in hay`. -/
def pyIn (needle hay : PyStr) : Bool := (firstOccur needle hay).isSome

/-- Python slice `s[a:b]` for nonnegative indices. -/
def pySlice (s : PyStr) (a b : Nat) : PyStr := (s.drop a).take (b - a)

/-- Python `s.rstrip(c)` for a single strip character. -/
def rstripChar (c : Char) (s : PyStr) : PyStr :=
  (s.reverse.dropWhile (fun d => d = c)).reverse

/-- Python `s.split(sep)[0]`: the segment before the first separator. -/
def beforeFirst (sep : Char) (s : PyStr) : PyStr :=
  s.takeWhile (fun d => d ≠ sep)

/-- Python `s.split(sep)[-1]`: the segment after the last separator. -/
def afterLast (sep : Char) (s : PyStr) : PyStr :=
  (s.reverse.takeWhile (fun d => d ≠ sep)).reverse

/-- Python `s.isdigit()` on the ASCII fragment. -/
def pyIsDigit (s : PyStr) : Bool := decide (s ≠ []) && s.all (fun c => c.isDigit)

/-- Numeric value of an ASCII digit character. -/
def digitVal (c : Char) : Nat := c.toNat - 48

/-- ASCII whitespace stripped by Python `int()` / `str.strip`. -/
def isPyWS (c : Char) : Bool :=
  c = ' ' || c = '\t' || c = '\n' || c = '\r' || c = '\x0b' || c = '\x0c'

/-- Python `s.strip()` on the ASCII fragment. -/
def pyStrip (s : PyStr) : PyStr :=
  ((s.dropWhile isPyWS).reverse.dropWhile isPyWS).reverse

/-- Tail of a Python decimal digit-part: digits, with single underscores
allowed between digits (Python 3 numeric-literal grammar for `int(str)`). -/
def pyDigitsAux : PyStr → Nat → Option Nat
  | [], acc => some acc
  | c :: rest, acc =>
    if c.isDigit then pyDigitsAux rest (acc * 10 + digitVal c)
    else if c = '_' then
      match rest with
      | [] => none
      | d :: rest2 =>
        if d.isDigit then pyDigitsAux rest2 (acc * 10 + digitVal d) else none
    else none

/-- Python decimal digit-part: nonempty, must start with a digit. -/
def pyDigitPart (s : PyStr) : Option Nat :=
  match s with
  | [] => none
  | c :: rest => if c.isDigit then pyDigitsAux rest (digitVal c) else none

/-- Model of Python `int(s)` on ASCII strings: optional surrounding
whitespace, optional sign, then a digit-part; `none` models `ValueError`. -/
def pyInt (s : PyStr) : Option Int :=
  match pyStrip s with
  | [] => none
  | c :: rest =>
    if c = '-' then (pyDigitPart rest).map (fun n => -(n : Int))
    else if c = '+' then (pyDigitPart rest).map (fun n => (n : Int))
    else (pyDigitPart (c :: rest)).map (fun n => (n : Int))

/-- Fuel-driven core of `natRepr`; any fuel above the argument suffices. -/
def natReprAux : Nat → Nat → PyStr
  | 0, _ => []
  | fuel + 1, n =>
    if n < 10 then [Nat.digitChar n]
    else natReprAux fuel (n / 10) ++ [Nat.digitChar (n % 10)]

/-- Decimal representation of a natural number, as produced by Python
string formatting of a nonnegative int. -/
def natRepr (n : Nat) : PyStr := natReprAux (n + 1) n

/-- Value of a digit string read left to right. -/
def parseDigits (s : PyStr) : Nat :=
  s.foldl (fun acc c => acc * 10 + digitVal c) 0

/-! ## tmux_execution_helpers.py -/

/-- Fixed prefix of generated start markers. -/
def startMarkerPfx : PyStr :=
  ['_', '_', 'T', 'M', 'U', 'X', '_', 'E', 'X', 'E', 'C', '_', 'S', 'T', 'A', 'R', 'T', '_']

/-- Fixed prefix of generated end markers. -/
def endMarkerPfx : PyStr :=
  ['_', '_', 'T', 'M', 'U', 'X', '_', 'E', 'X', 'E', 'C', '_', 'E', 'N', 'D', '_']

/-- Embedding of `generate_execution_markers`.  The process id and the
nanosecond timestamp are the two external inputs the Python code reads
(`os.getpid()`, `time.time_ns()`); the function of those inputs is pure. -/
def generate_execution_markers (pid timestamp : Nat) : PyStr × PyStr :=
  let unique_id := natRepr pid ++ '_' :: natRepr timestamp
  (startMarkerPfx ++ unique_id ++ ['_', '_'],
   endMarkerPfx ++ unique_id ++ ['_', '_'])

/-- Embedding of `wrap_command_with_markers`:
`echo start; \x7b command; \x7d 2>&1; echo end:$?`. -/
def wrap_command_with_markers (command start_marker end_marker : PyStr) : PyStr :=
  ('e' :: 'c' :: 'h' :: 'o' :: ' ' :: start_marker)
    ++ (';' :: ' ' :: '\x7b' :: ' ' :: command)
    ++ (';' :: ' ' :: '\x7d' :: ' ' :: '2' :: '>' :: '&' :: '1' :: ';' :: ' '
         :: 'e' :: 'c' :: 'h' :: 'o' :: ' ' :: end_marker)
    ++ [':', '$', '?']

/-- Embedding of `parse_marked_output`.  The `Option` scrutinees mirror the
Python `-1` checks: `firstOccur`/`lastOccur` are `none` exactly when
`find`/`rfind` return `-1`, and the leading membership test mirrors
`start_marker not in captured_output or end_marker not in captured_output`. -/
def parse_marked_output (captured_output start_marker end_marker : PyStr) : PyStr × Int :=
  if ¬ pyIn start_marker captured_output ∨ ¬ pyIn end_marker captured_output then
    (captured_output, -1)
  else
    match firstOccur start_marker captured_output,
          lastOccur (end_marker ++ [':']) captured_output with
    | some start_idx, some end_idx =>
      let output_start0 := start_idx + start_marker.length
      let output_start :=
        if captured_output[output_start0]? = some '\n' then output_start0 + 1
        else output_start0
      let output := rstripChar '\n' (pySlice captured_output output_start end_idx)
      let end_marker_line := beforeFirst '\n' (captured_output.drop end_idx)
      let exit_code_str := afterLast ':' end_marker_line
      let exit_code : Int :=
        match pyInt exit_code_str with
        | some n => n
        | none => -1
      (output, exit_code)
    | _, _ => (captured_output, -1)

/-- Model of the pane capture after the shell faithfully executes the
wrapped fragment (claim C1's capture model): the start-marker line, then the
raw output of the command group (followed by its line break when nonempty),
then the final `end:exit_code` line.  The trailing newline of the last line
is not part of a tmux pane capture (`_run_tmux_command` strips it). -/
def shellCapture (start_marker end_marker raw_output : PyStr) (exit_code : Nat) : PyStr :=
  start_marker ++ '\n' ::
    (raw_output ++ (if raw_output = [] then [] else ['\n'])
      ++ (end_marker ++ ':' :: natRepr exit_code))

/-! ## tmux_cli_controller.py -/

/-- One window row of `list-windows` output
(`#{window_name}|#{window_id}|#{window_index}`), already parsed out of the
`|`-separated wire format; the format glue is outside the modeled core. -/
structure TmuxWindow where
  name : PyStr
  id : PyStr
  index : Nat
deriving DecidableEq

/-- Embedding of `TmuxCLIController.resolve_window_identifier`.
`session` is the value of `self.session_name or self.get_current_session()`
(`none` when neither is available), `listing` the windows of that session as
reported by `tmux list-windows` at call time. -/
def resolve_window_identifier (session : Option PyStr) (listing : List TmuxWindow)
    (identifier : PyStr) : Option PyStr :=
  if identifier = [] then none
  else if startsWithL ['@'] identifier then some identifier
  else if pyIn [':'] identifier then some identifier
  else
    match session with
    | none => none
    | some sess =>
      match listing.find? (fun w => w.name == identifier) with
      | some w => some (sess ++ ':' :: w.name)
      | none =>
        if pyIsDigit identifier then some (sess ++ ':' :: identifier) else none

/-- The resolver as claim C8 (spec §4.4) describes it, written from the
spec's words for comparison with `resolve_window_identifier`: qualified
addresses and opaque `@`-ids pass through unchanged, a bare integer is
expanded via the backend's current listing to the entry at that index, a
name is exact-matched against the listing, and anything else fails. -/
def resolveSpecOrder (session : Option PyStr) (listing : List TmuxWindow)
    (identifier : PyStr) : Option PyStr :=
  if identifier = [] then none
  else if startsWithL ['@'] identifier then some identifier
  else if pyIn [':'] identifier then some identifier
  else
    match session with
    | none => none
    | some sess =>
      if pyIsDigit identifier then
        match listing.get? (parseDigits identifier) with
        | some w => some (sess ++ ':' :: w.name)
        | none => none
      else
        match listing.find? (fun w => w.name == identifier) with
        | some w => some (sess ++ ':' :: w.name)
        | none => none

/-- The `tmux-cli` window-name prefix. -/
def tmuxCliPfx : PyStr := ['t', 'm', 'u', 'x', '-', 'c', 'l', 'i']

/-- Embedding of `TmuxCLIController.generate_window_name`.  `timestamp` and
`rand` are the external inputs (`int(time.time())`, `random.randint(0,999)`)
used only on the no-custom-name path; Python's falsy test `if custom_name:`
sends both `None` and the empty string to that path. -/
def generate_window_name (custom_name : Option PyStr) (timestamp rand : Nat) : PyStr :=
  match custom_name with
  | some c =>
    if c ≠ [] then
      if startsWithL (tmuxCliPfx ++ ['-']) c then c else tmuxCliPfx ++ '-' :: c
    else tmuxCliPfx ++ '-' :: (natRepr timestamp ++ '-' :: natRepr rand)
  | none => tmuxCliPfx ++ '-' :: (natRepr timestamp ++ '-' :: natRepr rand)

/-- Embedding of `TmuxCLIController.create_window` (name-selection core):
without a session it returns `None`; otherwise it creates the window under
`generate_window_name window_name` and returns tmux's echo of
`#\x7bwindow_name\x7d`, modeled as the requested name on success. -/
def create_window (session : Option PyStr) (start_command window_name : Option PyStr)
    (timestamp rand : Nat) : Option PyStr :=
  match session, start_command with
  | none, _ => none
  | some _, _ => some (generate_window_name window_name timestamp rand)

/-- Embedding of `TmuxCLIController.list_tmux_cli_windows`: filter the
current listing by the `tmux-cli-` name prefix. -/
def list_tmux_cli_windows (listing : List TmuxWindow) : List TmuxWindow :=
  listing.filter (fun w => startsWithL (tmuxCliPfx ++ ['-']) w.name)

/-- State of the external tmux server visible to the modeled controller:
the current session (if any), its windows, and the id of the window the
caller's own process runs in (spec §4.5's "caller's own target"). -/
structure TmuxWorld where
  currentSession : Option PyStr
  windows : List TmuxWindow
  ownWindowId : PyStr
deriving DecidableEq

/-- Mutable controller fields of `TmuxCLIController`. -/
structure Ctrl where
  session_name : Option PyStr
  target_window : Option PyStr
deriving DecidableEq

/-- Python `a or b` over optional strings, where `None` and `""` are falsy. -/
def pyOrStr (a b : Option PyStr) : Option PyStr :=
  match a with
  | some s => if s = [] then b else some s
  | none => b

/-- Model of the external `tmux kill-window -t target` call on the current
session: an `@`-id target kills by window id; a `session:suffix` target
kills by index when the suffix is numeric, else by name; a bare target
kills by name. -/
def tmuxKillWindow (windows : List TmuxWindow) (target : PyStr) : List TmuxWindow :=
  if startsWithL ['@'] target then
    windows.filter (fun w => ¬ w.id == target)
  else
    let nm := if pyIn [':'] target then afterLast ':' target else target
    if pyIsDigit nm then
      windows.filter (fun w => ¬ w.index == parseDigits nm)
    else
      windows.filter (fun w => ¬ w.name == nm)

/-- Embedding of `TmuxCLIController.kill_window`: pick the target
(argument, else `self.target_window`; `none` models the `ValueError`),
resolve it (falling back to the raw target), then unconditionally issue
`kill-window` on it and clear `target_window` when it was the one killed. -/
def kill_window (ctrl : Ctrl) (world : TmuxWorld) (window_id : Option PyStr) :
    Option (Ctrl × TmuxWorld) :=
  match pyOrStr window_id ctrl.target_window with
  | none => none
  | some target =>
    if target = [] then none
    else
      let sess := pyOrStr ctrl.session_name world.currentSession
      let resolved := (resolve_window_identifier sess world.windows target).getD target
      let world2 := { world with windows := tmuxKillWindow world.windows resolved }
      let ctrl2 :=
        if ctrl.target_window = some target then { ctrl with target_window := none }
        else ctrl
      some (ctrl2, world2)

/-! ### wait_for_idle -/

/-- One loop iteration's external observations in `wait_for_idle`:
`tChk` the clock at the `while`-head timeout check, `tNow` the clock read in
whichever branch runs after the capture, `hash` the md5 hexdigest of the
captured content (never the empty string for a real digest). -/
structure IdleObs where
  tChk : ℚ
  tNow : ℚ
  hash : PyStr
deriving DecidableEq

/-- The loop-local state of `wait_for_idle`. -/
structure IdleSt where
  lastHash : PyStr
  lastChange : ℚ
deriving DecidableEq

/-- Python truthiness-guarded timeout test
`timeout and (time.time() - start_time > timeout)`:
a `None` or `0` timeout never fires. -/
def timeoutExpired (timeout : Option ℚ) (startTime now : ℚ) : Bool :=
  match timeout with
  | none => false
  | some v => decide (v ≠ 0) && decide (now - startTime > v)

/-- One iteration of the `wait_for_idle` loop body. -/
def wait_for_idle_step (timeout : Option ℚ) (startTime idle_time : ℚ)
    (st : IdleSt) (o : IdleObs) : IdleSt ⊕ Bool :=
  if timeoutExpired timeout startTime o.tChk then Sum.inr false
  else if o.hash ≠ st.lastHash then Sum.inl ⟨o.hash, o.tNow⟩
  else if o.tNow - st.lastChange ≥ idle_time then Sum.inr true
  else Sum.inl st

/-- Run of the `wait_for_idle` loop over a finite observation trace;
`none` means the loop is still polling when the trace ends. -/
def wait_for_idle_run (timeout : Option ℚ) (startTime idle_time : ℚ) :
    IdleSt → List IdleObs → Option Bool
  | _, [] => none
  | st, o :: rest =>
    match wait_for_idle_step timeout startTime idle_time st o with
    | Sum.inr b => some b
    | Sum.inl st2 => wait_for_idle_run timeout startTime idle_time st2 rest

/-- Embedding of `TmuxCLIController.wait_for_idle`: `startTime` and
`lastChange0` are the two initial `time.time()` reads, `last_hash` starts
as the empty string. -/
def wait_for_idle (timeout : Option ℚ) (startTime lastChange0 idle_time : ℚ)
    (obs : List IdleObs) : Option Bool :=
  wait_for_idle_run timeout startTime idle_time ⟨[], lastChange0⟩ obs

/-! ## String-search lemmas -/

theorem startsWithL_self_append (p t : PyStr) : startsWithL p (p ++ t) = true := by
  induction p with
  | nil => rfl
  | cons c cs ih => simp [startsWithL, ih]

theorem startsWithL_iff (n s : PyStr) : startsWithL n s = true ↔ ∃ t, s = n ++ t := by
  induction n generalizing s with
  | nil =>
    simp only [startsWithL, List.nil_append]
    exact ⟨fun _ => ⟨s, rfl⟩, fun _ => trivial⟩
  | cons c cs ih =>
    cases s with
    | nil =>
      simp only [startsWithL]
      constructor
      · intro h; cases h
      · rintro ⟨t, ht⟩; cases ht
    | cons d ds =>
      simp only [startsWithL, Bool.and_eq_true, decide_eq_true_eq, ih]
      constructor
      · rintro ⟨rfl, t, rfl⟩; exact ⟨t, rfl⟩
      · rintro ⟨t, ht⟩
        rw [List.cons_append] at ht
        cases ht
        exact ⟨rfl, t, rfl⟩

theorem firstOccur_of_startsWith {n s : PyStr} (h : startsWithL n s = true) :
    firstOccur n s = some 0 := by
  cases s <;> simp [firstOccur, h]

theorem firstOccur_isSome {n s : PyStr} (k : Nat)
    (h : startsWithL n (List.drop k s) = true) : (firstOccur n s).isSome = true := by
  induction s generalizing k with
  | nil =>
    rw [List.drop_nil] at h
    rw [firstOccur_of_startsWith h]
    rfl
  | cons c t ih =>
    cases k with
    | zero =>
      rw [List.drop_zero] at h
      rw [firstOccur_of_startsWith h]
      rfl
    | succ j =>
      have ht := ih j h
      simp only [firstOccur]
      split
      · rfl
      · simpa using ht

theorem pyIn_of_occurs {n s : PyStr} (k : Nat)
    (h : startsWithL n (List.drop k s) = true) : pyIn n s = true :=
  firstOccur_isSome k h

theorem lastOccur_eq_none {n s : PyStr}
    (h : ∀ k, startsWithL n (List.drop k s) = false) : lastOccur n s = none := by
  induction s with
  | nil =>
    have h0 := h 0
    rw [List.drop_zero] at h0
    simp [lastOccur, h0]
  | cons c t ih =>
    have ht : lastOccur n t = none := ih (fun k => h (k + 1))
    have h0 := h 0
    rw [List.drop_zero] at h0
    simp [lastOccur, ht, h0]

theorem lastOccur_eq_some {n s : PyStr} (p : Nat)
    (h1 : startsWithL n (List.drop p s) = true)
    (h2 : ∀ k, p < k → startsWithL n (List.drop k s) = false) :
    lastOccur n s = some p := by
  induction s generalizing p with
  | nil =>
    exfalso
    rw [List.drop_nil] at h1
    have hb := h2 (p + 1) (by omega)
    rw [List.drop_nil] at hb
    rw [h1] at hb
    cases hb
  | cons c t ih =>
    cases p with
    | zero =>
      rw [List.drop_zero] at h1
      have ht : lastOccur n t = none := lastOccur_eq_none (fun k => h2 (k + 1) (by omega))
      simp [lastOccur, ht, h1]
    | succ q =>
      have ht : lastOccur n t = some q := ih q h1 (fun k hk => h2 (k + 1) (by omega))
      simp [lastOccur, ht]

theorem takeWhile_append_stop {p : Char → Bool} {xs ys : PyStr} {y : Char}
    (hxs : ∀ c ∈ xs, p c = true) (hy : p y = false) :
    (xs ++ y :: ys).takeWhile p = xs := by
  induction xs with
  | nil => simp [List.takeWhile, hy]
  | cons a l ih =>
    have ha : p a = true := hxs a (by simp)
    simp only [List.cons_append, List.takeWhile_cons, ha, if_true]
    rw [ih (fun c hc => hxs c (by simp [hc]))]

/-! ## Decimal-representation lemmas -/

theorem natReprAux_fuel (f1 f2 n : Nat) (h1 : n < f1) (h2 : n < f2) :
    natReprAux f1 n = natReprAux f2 n := by
  induction n using Nat.strong_induction_on generalizing f1 f2 with
  | _ n ih =>
    cases f1 with
    | zero => omega
    | succ a =>
      cases f2 with
      | zero => omega
      | succ b =>
        simp only [natReprAux]
        split
        · rfl
        · rename_i hn
          have hd : n / 10 < n := Nat.div_lt_self (by omega) (by omega)
          rw [ih (n / 10) hd a b (by omega) (by omega)]

theorem natRepr_eq (n : Nat) :
    natRepr n =
      if n < 10 then [Nat.digitChar n]
      else natRepr (n / 10) ++ [Nat.digitChar (n % 10)] := by
  show natReprAux (n + 1) n = _
  rw [natReprAux]
  split
  · rfl
  · rename_i hn
    have hd : n / 10 < n := Nat.div_lt_self (by omega) (by omega)
    rw [natReprAux_fuel n (n / 10 + 1) (n / 10) (by omega) (by omega)]
    rfl

theorem digitChar_isDigit {d : Nat} (h : d < 10) : (Nat.digitChar d).isDigit = true := by
  interval_cases d <;> decide

theorem digitVal_digitChar {d : Nat} (h : d < 10) : digitVal (Nat.digitChar d) = d := by
  interval_cases d <;> decide

theorem natRepr_all_digits (n : Nat) : ∀ c ∈ natRepr n, c.isDigit = true := by
  induction n using Nat.strong_induction_on with
  | _ n ih =>
    rw [natRepr_eq]
    split
    · rename_i h
      intro c hc
      rw [List.mem_singleton] at hc
      subst hc
      exact digitChar_isDigit h
    · rename_i h
      intro c hc
      rw [List.mem_append] at hc
      rcases hc with hc | hc
      · exact ih (n / 10) (Nat.div_lt_self (by omega) (by omega)) c hc
      · rw [List.mem_singleton] at hc
        subst hc
        exact digitChar_isDigit (Nat.mod_lt _ (by omega))

theorem natRepr_ne_nil (n : Nat) : natRepr n ≠ [] := by
  rw [natRepr_eq]
  split <;> simp

theorem parseDigits_append_singleton (s : PyStr) (c : Char) :
    parseDigits (s ++ [c]) = parseDigits s * 10 + digitVal c := by
  unfold parseDigits
  rw [List.foldl_append]
  rfl

theorem parseDigits_natRepr (n : Nat) : parseDigits (natRepr n) = n := by
  induction n using Nat.strong_induction_on with
  | _ n ih =>
    rw [natRepr_eq]
    split
    · rename_i h
      have h1 : parseDigits [Nat.digitChar n] = 0 * 10 + digitVal (Nat.digitChar n) := rfl
      rw [h1, digitVal_digitChar h]
      omega
    · rename_i h
      rw [parseDigits_append_singleton,
        ih (n / 10) (Nat.div_lt_self (by omega) (by omega)),
        digitVal_digitChar (Nat.mod_lt _ (by omega))]
      omega

theorem natRepr_injective : Function.Injective natRepr := by
  intro a b h
  have h2 := congrArg parseDigits h
  rwa [parseDigits_natRepr, parseDigits_natRepr] at h2

theorem not_mem_of_all_digits {s : PyStr} {c : Char}
    (h : ∀ d ∈ s, d.isDigit = true) (hc : c.isDigit = false) : c ∉ s := by
  intro hm
  rw [h c hm] at hc
  cases hc

/-! ## Python int() on digit strings -/

theorem isPyWS_false_of_isDigit {c : Char} (h : c.isDigit = true) : isPyWS c = false := by
  unfold isPyWS
  by_contra hc
  rw [Bool.not_eq_false] at hc
  simp only [Bool.or_eq_true, decide_eq_true_eq] at hc
  rcases hc with ((((h1 | h1) | h1) | h1) | h1) | h1 <;>
    (subst h1; exact absurd h (by decide))

theorem dropWhile_eq_self_of {p : Char → Bool} {l : PyStr}
    (h : ∀ c ∈ l, p c = false) : l.dropWhile p = l := by
  cases l with
  | nil => rfl
  | cons c t => simp [List.dropWhile_cons, h c (by simp)]

theorem pyStrip_digits {s : PyStr} (h : ∀ c ∈ s, c.isDigit = true) : pyStrip s = s := by
  unfold pyStrip
  rw [dropWhile_eq_self_of (fun c hc => isPyWS_false_of_isDigit (h c hc)),
    dropWhile_eq_self_of
      (fun c hc => isPyWS_false_of_isDigit (h c (List.mem_reverse.mp hc))),
    List.reverse_reverse]

theorem pyDigitsAux_digits {s : PyStr} (a : Nat) (h : ∀ c ∈ s, c.isDigit = true) :
    pyDigitsAux s a = some (s.foldl (fun acc c => acc * 10 + digitVal c) a) := by
  induction s generalizing a with
  | nil => rfl
  | cons c t ih =>
    have hc : c.isDigit = true := h c (by simp)
    rw [pyDigitsAux.eq_def]
    simp only [hc, if_true, List.foldl_cons]
    exact ih _ (fun d hd => h d (by simp [hd]))

theorem pyInt_digits {s : PyStr} (hne : s ≠ []) (h : ∀ c ∈ s, c.isDigit = true) :
    pyInt s = some ((parseDigits s : Nat) : Int) := by
  rw [pyInt.eq_def, pyStrip_digits h]
  cases s with
  | nil => exact absurd rfl hne
  | cons c t =>
    have hc : c.isDigit = true := h c (by simp)
    have hm : ¬ (c = '-') := fun he => by subst he; exact absurd hc (by decide)
    have hp : ¬ (c = '+') := fun he => by subst he; exact absurd hc (by decide)
    simp only [hm, hp, if_false]
    rw [pyDigitPart.eq_def]
    simp only [hc, if_true]
    rw [pyDigitsAux_digits _ (fun d hd => h d (by simp [hd]))]
    have hfold : List.foldl (fun acc c => acc * 10 + digitVal c) (digitVal c) t
        = parseDigits (c :: t) := by
      unfold parseDigits
      rw [List.foldl_cons]
      congr 1
      omega
    rw [hfold]
    rfl

theorem pyInt_natRepr (n : Nat) : pyInt (natRepr n) = some (n : Int) := by
  rw [pyInt_digits (natRepr_ne_nil n) (natRepr_all_digits n), parseDigits_natRepr]

/-! ## Structure of parse_marked_output -/

theorem no_late_occurrence {end_marker trailer : PyStr} (d : Nat)
    (hc : ':' ∉ end_marker) (tc : ':' ∉ trailer) (hd : 1 ≤ d) :
    startsWithL (end_marker ++ [':'])
      (List.drop d (end_marker ++ ':' :: trailer)) = false := by
  by_contra hcon
  rw [Bool.not_eq_false, startsWithL_iff] at hcon
  obtain ⟨t, ht⟩ := hcon
  by_cases hle : d ≤ end_marker.length
  · have hdrop : List.drop d (end_marker ++ ':' :: trailer)
        = end_marker.drop d ++ ':' :: trailer := by
      rw [List.drop_append_eq_append_drop, Nat.sub_eq_zero_of_le hle, List.drop_zero]
    rw [hdrop, List.append_assoc, List.singleton_append] at ht
    have h1 : (end_marker.drop d ++ ':' :: trailer).takeWhile (fun c => c ≠ ':')
        = end_marker.drop d :=
      takeWhile_append_stop
        (fun c hcm => by
          simp only [ne_eq, decide_eq_true_eq]
          intro he
          subst he
          exact hc (List.mem_of_mem_drop hcm))
        (by simp)
    have h2 : (end_marker ++ ':' :: t).takeWhile (fun c => c ≠ ':') = end_marker :=
      takeWhile_append_stop
        (fun c hcm => by
          simp only [ne_eq, decide_eq_true_eq]
          intro he
          subst he
          exact hc hcm)
        (by simp)
    have h3 := congrArg (fun l => l.takeWhile (fun c => c ≠ ':')) ht
    simp only [h1, h2] at h3
    have h4 := congrArg List.length h3
    rw [List.length_drop] at h4
    omega
  · have hlen : (end_marker ++ [':']).length ≤ d := by
      rw [List.length_append, List.length_singleton]
      omega
    have hdrop : List.drop d (end_marker ++ ':' :: trailer)
        = trailer.drop (d - (end_marker ++ [':']).length) := by
      have hsplit : end_marker ++ ':' :: trailer = (end_marker ++ [':']) ++ trailer := by
        rw [List.append_assoc, List.singleton_append]
      rw [hsplit, List.drop_append_eq_append_drop, List.drop_of_length_le hlen,
        List.nil_append]
    rw [hdrop] at ht
    have hmem : ':' ∈ trailer.drop (d - (end_marker ++ [':']).length) := by
      rw [ht, List.append_assoc, List.singleton_append]
      exact List.mem_append_right _ (by simp)
    exact tc (List.mem_of_mem_drop hmem)

/-- On any capture beginning with the start marker, `str.find` anchors at
the first occurrence, index 0, whatever the rest contains. -/
theorem capture_firstOccur (start_marker rest : PyStr) :
    firstOccur start_marker (start_marker ++ rest) = some 0 :=
  firstOccur_of_startsWith (startsWithL_self_append _ _)

/-- On a capture ending in `end_marker ++ ":" ++ trailer`, `str.rfind`
anchors at that final occurrence of `end_marker ++ ":"`, whatever
end-marker-like text `body` contains. -/
theorem capture_lastOccur (start_marker end_marker body trailer : PyStr)
    (hc : ':' ∉ end_marker) (tc : ':' ∉ trailer) :
    lastOccur (end_marker ++ [':'])
        (start_marker ++ '\n' :: (body ++ (end_marker ++ ':' :: trailer)))
      = some (start_marker.length + body.length + 1) := by
  set captured := start_marker ++ '\n' :: (body ++ (end_marker ++ ':' :: trailer))
    with hcap
  have hA : captured = (start_marker ++ '\n' :: body) ++ (end_marker ++ ':' :: trailer) := by
    rw [hcap, List.append_assoc, List.cons_append]
  have hAlen : (start_marker ++ '\n' :: body).length
      = start_marker.length + body.length + 1 := by
    rw [List.length_append, List.length_cons]
    omega
  have hdropP : List.drop (start_marker.length + body.length + 1) captured
      = end_marker ++ ':' :: trailer := by
    rw [hA, ← hAlen, List.drop_left]
  apply lastOccur_eq_some
  · rw [hdropP]
    have hsplit : end_marker ++ ':' :: trailer = (end_marker ++ [':']) ++ trailer := by
      rw [List.append_assoc, List.singleton_append]
    rw [hsplit]
    exact startsWithL_self_append _ _
  · intro k hk
    have hdk : List.drop k captured
        = List.drop (k - (start_marker.length + body.length + 1))
            (end_marker ++ ':' :: trailer) := by
      rw [← hdropP, List.drop_drop]
      congr 1
      omega
    rw [hdk]
    exact no_late_occurrence _ hc tc (by omega)

/-- Master structural lemma for `parse_marked_output`: on a capture of the
shape `start ++ newline ++ body ++ end ++ colon ++ trailer` — whatever
marker-like text `body` contains — the parser anchors on the leading
occurrence of the start marker and on the final occurrence of
`end_marker ++ ":"`, and returns the trailing-newline-stripped `body`
together with Python `int()` of the trailer (`-1` on `ValueError`). -/
theorem parse_marked_output_structure (start_marker end_marker body trailer : PyStr)
    (hc : ':' ∉ end_marker) (hn : '\n' ∉ end_marker)
    (tc : ':' ∉ trailer) (tn : '\n' ∉ trailer) :
    parse_marked_output
        (start_marker ++ '\n' :: (body ++ (end_marker ++ ':' :: trailer)))
        start_marker end_marker
      = (rstripChar '\n' body,
         match pyInt trailer with
         | some n => n
         | none => -1) := by
  set captured := start_marker ++ '\n' :: (body ++ (end_marker ++ ':' :: trailer))
    with hcap
  have hA : captured = (start_marker ++ '\n' :: body) ++ (end_marker ++ ':' :: trailer) := by
    rw [hcap, List.append_assoc, List.cons_append]
  have hAlen : (start_marker ++ '\n' :: body).length
      = start_marker.length + body.length + 1 := by
    rw [List.length_append, List.length_cons]
    omega
  have hstart : startsWithL start_marker captured = true := by
    rw [hcap]
    exact startsWithL_self_append _ _
  have hdropP : List.drop (start_marker.length + body.length + 1) captured
      = end_marker ++ ':' :: trailer := by
    rw [hA, ← hAlen, List.drop_left]
  have hendP : startsWithL (end_marker ++ [':'])
      (List.drop (start_marker.length + body.length + 1) captured) = true := by
    rw [hdropP]
    have hsplit : end_marker ++ ':' :: trailer = (end_marker ++ [':']) ++ trailer := by
      rw [List.append_assoc, List.singleton_append]
    rw [hsplit]
    exact startsWithL_self_append _ _
  have hpyin1 : pyIn start_marker captured = true := by
    apply pyIn_of_occurs 0
    rw [List.drop_zero]
    exact hstart
  have hpyin2 : pyIn end_marker captured = true := by
    apply pyIn_of_occurs (start_marker.length + body.length + 1)
    rw [hdropP]
    exact startsWithL_self_append _ _
  have hfirst : firstOccur start_marker captured = some 0 :=
    firstOccur_of_startsWith hstart
  have hlast : lastOccur (end_marker ++ [':']) captured
      = some (start_marker.length + body.length + 1) :=
    capture_lastOccur start_marker end_marker body trailer hc tc
  have hget : captured[0 + start_marker.length]? = some '\n' := by
    rw [Nat.zero_add, hcap, List.getElem?_append_right (Nat.le_refl _), Nat.sub_self]
    simp
  have hslice : pySlice captured (0 + start_marker.length + 1)
      (start_marker.length + body.length + 1) = body := by
    unfold pySlice
    have hsplit2 : captured = (start_marker ++ ['\n'])
        ++ (body ++ (end_marker ++ ':' :: trailer)) := by
      rw [hcap, List.append_assoc, List.singleton_append]
    have hlen2 : (start_marker ++ ['\n']).length = 0 + start_marker.length + 1 := by
      rw [List.length_append, List.length_singleton]
      omega
    rw [hsplit2, ← hlen2, List.drop_left]
    have htake : start_marker.length + body.length + 1
        - (start_marker ++ ['\n']).length = body.length := by
      rw [hlen2]
      omega
    rw [htake, List.take_left]
  have hline : beforeFirst '\n'
      (List.drop (start_marker.length + body.length + 1) captured)
      = end_marker ++ ':' :: trailer := by
    rw [hdropP]
    unfold beforeFirst
    apply List.takeWhile_eq_self_iff.mpr
    intro a ha
    simp only [ne_eq, decide_eq_true_eq]
    rw [List.mem_append, List.mem_cons] at ha
    rcases ha with ha | ha | ha
    · intro he; subst he; exact hn ha
    · subst ha; decide
    · intro he; subst he; exact tn ha
  have htrail : afterLast ':' (end_marker ++ ':' :: trailer) = trailer := by
    unfold afterLast
    have hrev : (end_marker ++ ':' :: trailer).reverse
        = trailer.reverse ++ ':' :: end_marker.reverse := by
      rw [List.reverse_append, List.reverse_cons, List.append_assoc,
        List.singleton_append]
    rw [hrev]
    rw [takeWhile_append_stop
      (fun c hcm => by
        simp only [ne_eq, decide_eq_true_eq]
        intro he
        subst he
        exact tc (List.mem_reverse.mp hcm))
      (by simp)]
    exact List.reverse_reverse _
  rw [parse_marked_output, if_neg (by rw [hpyin1, hpyin2]; simp), hfirst, hlast]
  simp only [hget, if_pos, hslice, hline, htrail]

/-! ## Marker-character lemmas -/

/-- Shell-safe marker alphabet: alphanumeric or underscore (spec §4.1). -/
def shellSafeChar (c : Char) : Bool := c.isAlphanum || c = '_'

theorem shellSafe_of_isDigit {c : Char} (h : c.isDigit = true) :
    shellSafeChar c = true := by
  simp [shellSafeChar, Char.isAlphanum, h]

theorem marker_chars {pfx : PyStr} (hpfx : ∀ c ∈ pfx, shellSafeChar c = true)
    (pid ts : Nat) :
    ∀ c ∈ pfx ++ ((natRepr pid ++ '_' :: natRepr ts) ++ ['_', '_']),
      shellSafeChar c = true := by
  intro c hcm
  rw [List.mem_append] at hcm
  rcases hcm with hcm | hcm
  · exact hpfx c hcm
  · rw [List.mem_append] at hcm
    rcases hcm with hcm | hcm
    · rw [List.mem_append, List.mem_cons] at hcm
      rcases hcm with hcm | hcm | hcm
      · exact shellSafe_of_isDigit (natRepr_all_digits pid c hcm)
      · subst hcm; decide
      · exact shellSafe_of_isDigit (natRepr_all_digits ts c hcm)
    · rcases hcm with _ | ⟨_, hcm⟩
      · decide
      · rcases hcm with _ | ⟨_, hcm⟩
        · decide
        · cases hcm

theorem not_mem_of_shellSafe {m : PyStr} (hm : ∀ c ∈ m, shellSafeChar c = true)
    {c : Char} (hc : shellSafeChar c = false) : c ∉ m := by
  intro hmem
  rw [hm c hmem] at hc
  cases hc

theorem startMarkerPfx_shellSafe : ∀ c ∈ startMarkerPfx, shellSafeChar c = true := by
  decide

theorem endMarkerPfx_shellSafe : ∀ c ∈ endMarkerPfx, shellSafeChar c = true := by
  decide

theorem start_marker_shellSafe (pid ts : Nat) :
    ∀ c ∈ (generate_execution_markers pid ts).1, shellSafeChar c = true :=
  marker_chars startMarkerPfx_shellSafe pid ts

theorem end_marker_shellSafe (pid ts : Nat) :
    ∀ c ∈ (generate_execution_markers pid ts).2, shellSafeChar c = true :=
  marker_chars endMarkerPfx_shellSafe pid ts

theorem firstOccur_some_occurs {n hay : PyStr} {k : Nat}
    (h : firstOccur n hay = some k) : startsWithL n (List.drop k hay) = true := by
  induction hay generalizing k with
  | nil =>
    unfold firstOccur at h
    split at h
    · rename_i hsw
      cases h
      simpa using hsw
    · cases h
  | cons c t ih =>
    unfold firstOccur at h
    split at h
    · rename_i hsw
      cases h
      simpa using hsw
    · rw [Option.map_eq_some'] at h
      obtain ⟨j, hj, hjk⟩ := h
      subst hjk
      exact ih hj

theorem mem_of_pyIn {n hay : PyStr} (h : pyIn n hay = true) :
    ∀ c ∈ n, c ∈ hay := by
  intro c hcn
  unfold pyIn at h
  rw [Option.isSome_iff_exists] at h
  obtain ⟨k, hk⟩ := h
  have hsw := firstOccur_some_occurs hk
  rw [startsWithL_iff] at hsw
  obtain ⟨t, ht⟩ := hsw
  apply List.mem_of_mem_drop (n := k)
  rw [ht]
  exact List.mem_append_left _ hcn

theorem not_pyIn_of_missing_char {n hay : PyStr} {c : Char}
    (hcn : c ∈ n) (hch : c ∉ hay) : pyIn n hay = false := by
  by_contra h
  rw [Bool.not_eq_false] at h
  exact hch (mem_of_pyIn h c hcn)

theorem char_not_in_marker {pfx : PyStr} {c : Char} (hpfx : c ∉ pfx)
    (hdig : c.isDigit = false) (hund : c ≠ '_') (pid ts : Nat) :
    c ∉ pfx ++ ((natRepr pid ++ '_' :: natRepr ts) ++ ['_', '_']) := by
  intro hm
  rw [List.mem_append] at hm
  rcases hm with hm | hm
  · exact hpfx hm
  · rw [List.mem_append] at hm
    rcases hm with hm | hm
    · rw [List.mem_append, List.mem_cons] at hm
      rcases hm with hm | hm | hm
      · exact not_mem_of_all_digits (natRepr_all_digits pid) hdig hm
      · exact hund hm
      · exact not_mem_of_all_digits (natRepr_all_digits ts) hdig hm
    · rcases hm with _ | ⟨_, hm⟩
      · exact hund rfl
      · rcases hm with _ | ⟨_, hm⟩
        · exact hund rfl
        · cases hm

theorem unique_id_inj (pid ts1 ts2 : Nat)
    (h : natRepr pid ++ '_' :: natRepr ts1 = natRepr pid ++ '_' :: natRepr ts2) :
    ts1 = ts2 := by
  have h2 := List.append_cancel_left h
  rw [List.cons_eq_cons] at h2
  exact natRepr_injective h2.2

/-! ## wait_for_idle loop invariants -/

/-- Default observation used with `List.getD` in loop statements. -/
def obsD : IdleObs := ⟨0, 0, []⟩

theorem wait_for_idle_run_false {timeout : Option ℚ} {startTime idle_time : ℚ}
    {st : IdleSt} {obs : List IdleObs}
    (h : wait_for_idle_run timeout startTime idle_time st obs = some false) :
    ∃ v, timeout = some v ∧ v ≠ 0 ∧
      ∃ k, k < obs.length ∧ (obs.getD k obsD).tChk - startTime > v := by
  induction obs generalizing st with
  | nil => cases h
  | cons o rest ih =>
    rw [wait_for_idle_run] at h
    by_cases h1 : timeoutExpired timeout startTime o.tChk
    · cases htm : timeout with
      | none => rw [htm] at h1; cases h1
      | some v =>
        rw [htm] at h1
        unfold timeoutExpired at h1
        rw [Bool.and_eq_true, decide_eq_true_eq, decide_eq_true_eq] at h1
        exact ⟨v, rfl, h1.1, 0, by simp, by simpa using h1.2⟩
    · rw [wait_for_idle_step, if_neg h1] at h
      by_cases h2 : o.hash ≠ st.lastHash
      · rw [if_pos h2] at h
        obtain ⟨v, hv, hv0, k, hk, ht⟩ := ih h
        exact ⟨v, hv, hv0, k + 1, by simpa using hk, by simpa using ht⟩
      · rw [if_neg h2] at h
        by_cases h3 : o.tNow - st.lastChange ≥ idle_time
        · rw [if_pos h3] at h
          cases h
        · rw [if_neg h3] at h
          obtain ⟨v, hv, hv0, k, hk, ht⟩ := ih h
          exact ⟨v, hv, hv0, k + 1, by simpa using hk, by simpa using ht⟩

theorem wait_for_idle_run_true {timeout : Option ℚ} {startTime idle_time : ℚ}
    {st : IdleSt} {obs : List IdleObs}
    (h : wait_for_idle_run timeout startTime idle_time st obs = some true) :
    (∃ j k, j ≤ k ∧ k < obs.length ∧
      (∀ i, j ≤ i → i ≤ k → (obs.getD i obsD).hash = (obs.getD j obsD).hash) ∧
      (obs.getD k obsD).tNow - (obs.getD j obsD).tNow ≥ idle_time) ∨
    (∃ k, k < obs.length ∧
      (∀ i, i ≤ k → (obs.getD i obsD).hash = st.lastHash) ∧
      (obs.getD k obsD).tNow - st.lastChange ≥ idle_time) := by
  induction obs generalizing st with
  | nil => cases h
  | cons o rest ih =>
    rw [wait_for_idle_run] at h
    by_cases h1 : timeoutExpired timeout startTime o.tChk
    · rw [wait_for_idle_step, if_pos h1] at h
      cases h
    · rw [wait_for_idle_step, if_neg h1] at h
      by_cases h2 : o.hash ≠ st.lastHash
      · rw [if_pos h2] at h
        rcases ih h with ⟨j, k, hjk, hk, hall, ht⟩ | ⟨k, hk, hall, ht⟩
        · refine Or.inl ⟨j + 1, k + 1, by omega, by simpa using hk, ?_, by simpa using ht⟩
          intro i hji hik
          cases i with
          | zero => omega
          | succ i2 =>
            have := hall i2 (by omega) (by omega)
            simpa using this
        · refine Or.inl ⟨0, k + 1, by omega, by simpa using hk, ?_, by simpa using ht⟩
          intro i _ hik
          cases i with
          | zero => rfl
          | succ i2 =>
            have := hall i2 (by omega)
            simpa using this
      · rw [if_neg h2] at h
        rw [not_not] at h2
        by_cases h3 : o.tNow - st.lastChange ≥ idle_time
        · rw [if_pos h3] at h
          refine Or.inr ⟨0, by simp, ?_, by simpa using h3⟩
          intro i hi
          have hi0 : i = 0 := by omega
          subst hi0
          simpa using h2
        · rw [if_neg h3] at h
          rcases ih h with ⟨j, k, hjk, hk, hall, ht⟩ | ⟨k, hk, hall, ht⟩
          · refine Or.inl ⟨j + 1, k + 1, by omega, by simpa using hk, ?_, by simpa using ht⟩
            intro i hji hik
            cases i with
            | zero => omega
            | succ i2 =>
              have := hall i2 (by omega) (by omega)
              simpa using this
          · refine Or.inr ⟨k + 1, by simpa using hk, ?_, by simpa using ht⟩
            intro i hik
            cases i with
            | zero => simpa using h2
            | succ i2 =>
              have := hall i2 (by omega)
              simpa using this

/-! ## Claim theorems: marker protocol -/

theorem rstripChar_append_self (s : PyStr) (c : Char) :
    rstripChar c (s ++ [c]) = rstripChar c s := by
  unfold rstripChar
  rw [List.reverse_append]
  simp [List.dropWhile_cons]

/-- Claim C1: round-trip correctness of the marker protocol.  For every
command output (covering the claim's categories — empty, single line,
multi-line with blank lines — and any other output) and every exit code
(0, 1, 127, 255 and any other), wrapping with a generated marker pair,
modelling the shell's faithful echo of the wrapped fragment (start-marker
line, the output, then the `end:code` line), and parsing the capture
reproduces the output exactly modulo trailing-newline normalization and
the exit code exactly. -/
theorem claim_C1_roundtrip (pid ts : Nat) (raw : PyStr) (code : Nat) :
    parse_marked_output
        (shellCapture (generate_execution_markers pid ts).1
          (generate_execution_markers pid ts).2 raw code)
        (generate_execution_markers pid ts).1
        (generate_execution_markers pid ts).2
      = (rstripChar '\n' raw, (code : Int)) := by
  have hc : ':' ∉ (generate_execution_markers pid ts).2 :=
    not_mem_of_shellSafe (end_marker_shellSafe pid ts) (by decide)
  have hn : '\n' ∉ (generate_execution_markers pid ts).2 :=
    not_mem_of_shellSafe (end_marker_shellSafe pid ts) (by decide)
  have tc : ':' ∉ natRepr code :=
    not_mem_of_all_digits (natRepr_all_digits code) (by decide)
  have tn : '\n' ∉ natRepr code :=
    not_mem_of_all_digits (natRepr_all_digits code) (by decide)
  have hshape : shellCapture (generate_execution_markers pid ts).1
      (generate_execution_markers pid ts).2 raw code
      = (generate_execution_markers pid ts).1 ++ '\n' ::
          ((raw ++ (if raw = [] then [] else ['\n']))
            ++ ((generate_execution_markers pid ts).2 ++ ':' :: natRepr code)) := by
    unfold shellCapture
    rw [List.append_assoc]
  rw [hshape, parse_marked_output_structure _ _ _ _ hc hn tc tn, pyInt_natRepr]
  by_cases hraw : raw = []
  · rw [if_pos hraw, List.append_nil]
  · rw [if_neg hraw, rstripChar_append_self]

/-- Claim C2 counterexample: a capture in which the start marker `"S"` is
absent but the end marker `"E"` followed by `":"` and the integer `7` is
present.  `parse_marked_output` returns the failure sentinel
`(captured, -1)` instead of anchoring on the end marker and returning 7. -/
theorem claim_C2_counterexample :
    pyIn ['S'] ['o', 'u', 't', '\n', 'E', ':', '7'] = false ∧
    pyIn ('E' :: [':']) ['o', 'u', 't', '\n', 'E', ':', '7'] = true ∧
    pyInt ['7'] = some 7 ∧
    parse_marked_output ['o', 'u', 't', '\n', 'E', ':', '7'] ['S'] ['E']
      = (['o', 'u', 't', '\n', 'E', ':', '7'], -1) ∧
    (parse_marked_output ['o', 'u', 't', '\n', 'E', ':', '7'] ['S'] ['E']).2 ≠ 7 := by
  refine ⟨by decide, by decide, by decide, by decide, by decide⟩

/-- Claim C2 as amended: when the start marker is absent from the capture,
`parse_marked_output` does not fall back to anchoring on the end marker; it
returns the failure sentinel `(captured, -1)` even when the end marker with
a valid integer trailer is present. -/
theorem claim_C2_amended (captured start_marker end_marker : PyStr)
    (h : pyIn start_marker captured = false) :
    parse_marked_output captured start_marker end_marker = (captured, -1) := by
  rw [parse_marked_output, if_pos (Or.inl (by simp [h]))]

theorem claim_C2_amended_witness :
    pyIn ['S'] ['o', 'u', 't'] = false ∧
    parse_marked_output ['o', 'u', 't'] ['S'] ['E'] = (['o', 'u', 't'], -1) :=
  ⟨by decide, claim_C2_amended ['o', 'u', 't'] ['S'] ['E'] (by decide)⟩

/-- Claim C5: when both markers are present, `parse_marked_output` anchors
extraction on the first occurrence of the start marker and the last
occurrence of `end_marker ++ ":"` — the body between them may contain
arbitrary end-marker-like text — and the returned output is exactly the
text strictly between the anchors, with the single leading newline after
the start marker skipped and trailing newlines stripped. -/
theorem claim_C5_anchoring (start_marker end_marker body trailer : PyStr)
    (hc : ':' ∉ end_marker) (hn : '\n' ∉ end_marker)
    (tc : ':' ∉ trailer) (tn : '\n' ∉ trailer) :
    firstOccur start_marker
        (start_marker ++ '\n' :: (body ++ (end_marker ++ ':' :: trailer)))
      = some 0 ∧
    lastOccur (end_marker ++ [':'])
        (start_marker ++ '\n' :: (body ++ (end_marker ++ ':' :: trailer)))
      = some (start_marker.length + body.length + 1) ∧
    parse_marked_output
        (start_marker ++ '\n' :: (body ++ (end_marker ++ ':' :: trailer)))
        start_marker end_marker
      = (rstripChar '\n' body,
         match pyInt trailer with
         | some n => n
         | none => -1) :=
  ⟨capture_firstOccur _ _,
   capture_lastOccur _ _ _ _ hc tc,
   parse_marked_output_structure _ _ _ _ hc hn tc tn⟩

theorem claim_C5_anchoring_witness :
    (':' ∉ ['E'] ∧ '\n' ∉ ['E'] ∧ ':' ∉ ['4', '2'] ∧ '\n' ∉ ['4', '2']) ∧
    (firstOccur ['S']
        (['S'] ++ '\n' :: ((['f', 'a', 'k', 'e', ' ', 'E', ':', '0', '\n', 'x']
          ++ (['E'] ++ ':' :: ['4', '2']))))
      = some 0 ∧
    lastOccur (['E'] ++ [':'])
        (['S'] ++ '\n' :: ((['f', 'a', 'k', 'e', ' ', 'E', ':', '0', '\n', 'x']
          ++ (['E'] ++ ':' :: ['4', '2']))))
      = some 12 ∧
    parse_marked_output
        (['S'] ++ '\n' :: ((['f', 'a', 'k', 'e', ' ', 'E', ':', '0', '\n', 'x']
          ++ (['E'] ++ ':' :: ['4', '2']))))
        ['S'] ['E']
      = (rstripChar '\n' ['f', 'a', 'k', 'e', ' ', 'E', ':', '0', '\n', 'x'],
         match pyInt ['4', '2'] with
         | some n => n
         | none => -1)) :=
  ⟨⟨by decide, by decide, by decide, by decide⟩,
   claim_C5_anchoring ['S'] ['E'] ['f', 'a', 'k', 'e', ' ', 'E', ':', '0', '\n', 'x']
     ['4', '2'] (by decide) (by decide) (by decide) (by decide)⟩

/-- Claim C4: `parse_marked_output` returns the sentinel exactly on protocol
failure.  Part one: when either marker is absent from the capture, the
result is `(captured, -1)` with the captured text unchanged.  Part two: when
both markers are present but Python `int()` fails on the text after the
final `":"` of the end-marker line (located at the last occurrence of
`end_marker ++ ":"`), the exit code is `-1` (malformed trailer treated like
timeout).  The embedding is a total function, so no exception escapes. -/
theorem claim_C4_sentinel :
    (∀ captured start_marker end_marker : PyStr,
      (¬ pyIn start_marker captured = true ∨ ¬ pyIn end_marker captured = true) →
      parse_marked_output captured start_marker end_marker = (captured, -1)) ∧
    (∀ captured start_marker end_marker : PyStr,
      pyIn start_marker captured = true →
      pyIn end_marker captured = true →
      pyInt (afterLast ':' (beforeFirst '\n'
          (captured.drop ((lastOccur (end_marker ++ [':']) captured).getD 0)))) = none →
      (parse_marked_output captured start_marker end_marker).2 = -1) := by
  constructor
  · intro captured s e h
    rw [parse_marked_output, if_pos h]
  · intro captured s e h1 h2 h3
    rw [parse_marked_output, if_neg (by rw [h1, h2]; simp)]
    cases hf : firstOccur s captured with
    | none => simp
    | some si =>
      cases hl : lastOccur (e ++ [':']) captured with
      | none => simp
      | some ei =>
        rw [hl, Option.getD_some] at h3
        simp [h3]

theorem claim_C4_sentinel_witness :
    ((¬ pyIn ['S'] ['x'] = true ∨ ¬ pyIn ['E'] ['x'] = true) ∧
      parse_marked_output ['x'] ['S'] ['E'] = (['x'], -1)) ∧
    ((pyIn ['S'] ['S', '\n', 'o', '\n', 'E', ':', 'z'] = true ∧
      pyIn ['E'] ['S', '\n', 'o', '\n', 'E', ':', 'z'] = true ∧
      pyInt (afterLast ':' (beforeFirst '\n'
          ((['S', '\n', 'o', '\n', 'E', ':', 'z'] : PyStr).drop
            ((lastOccur (['E'] ++ [':']) ['S', '\n', 'o', '\n', 'E', ':', 'z']).getD 0))))
        = none) ∧
      (parse_marked_output ['S', '\n', 'o', '\n', 'E', ':', 'z'] ['S'] ['E']).2 = -1) :=
  ⟨⟨Or.inl (by decide),
    claim_C4_sentinel.1 ['x'] ['S'] ['E'] (Or.inl (by decide))⟩,
   ⟨⟨by decide, by decide, by decide⟩,
    claim_C4_sentinel.2 ['S', '\n', 'o', '\n', 'E', ':', 'z'] ['S'] ['E']
      (by decide) (by decide) (by decide)⟩⟩

/-! ## Claim theorems: marker generation -/

theorem start_marker_inj (pid : Nat) {t1 t2 : Nat}
    (h : (generate_execution_markers pid t1).1 = (generate_execution_markers pid t2).1) :
    t1 = t2 := by
  have h2 : startMarkerPfx ++ ((natRepr pid ++ '_' :: natRepr t1) ++ ['_', '_'])
      = startMarkerPfx ++ ((natRepr pid ++ '_' :: natRepr t2) ++ ['_', '_']) := h
  exact unique_id_inj pid t1 t2
    (List.append_cancel_right (List.append_cancel_left h2))

theorem end_marker_inj (pid : Nat) {t1 t2 : Nat}
    (h : (generate_execution_markers pid t1).2 = (generate_execution_markers pid t2).2) :
    t1 = t2 := by
  have h2 : endMarkerPfx ++ ((natRepr pid ++ '_' :: natRepr t1) ++ ['_', '_'])
      = endMarkerPfx ++ ((natRepr pid ++ '_' :: natRepr t2) ++ ['_', '_']) := h
  exact unique_id_inj pid t1 t2
    (List.append_cancel_right (List.append_cancel_left h2))

/-- Claim C6: every generated marker pair uses only alphanumeric and
underscore characters; the distinct fixed prefixes make neither marker a
substring of the other (the start marker contains `S`, absent from the end
marker; the end marker contains `D`, absent from the start marker); and
along any within-process sequence of calls whose nanosecond timestamps
strictly advance — as the claim states for consecutive calls — the start
markers are pairwise distinct and the end markers are pairwise distinct. -/
theorem claim_C6_marker_generation (pid : Nat) :
    (∀ ts, (∀ c ∈ (generate_execution_markers pid ts).1, shellSafeChar c = true) ∧
      (∀ c ∈ (generate_execution_markers pid ts).2, shellSafeChar c = true)) ∧
    (∀ ts,
      pyIn (generate_execution_markers pid ts).1
        (generate_execution_markers pid ts).2 = false ∧
      pyIn (generate_execution_markers pid ts).2
        (generate_execution_markers pid ts).1 = false) ∧
    (∀ f : Nat → Nat, StrictMono f → ∀ i j : Nat, i ≠ j →
      (generate_execution_markers pid (f i)).1 ≠ (generate_execution_markers pid (f j)).1 ∧
      (generate_execution_markers pid (f i)).2 ≠ (generate_execution_markers pid (f j)).2) := by
  refine ⟨fun ts => ⟨start_marker_shellSafe pid ts, end_marker_shellSafe pid ts⟩,
    fun ts => ⟨?_, ?_⟩, fun f hf i j hij => ⟨?_, ?_⟩⟩
  · have hS : 'S' ∈ (generate_execution_markers pid ts).1 :=
      List.mem_append_left _ (List.mem_append_left _ (show 'S' ∈ startMarkerPfx by decide))
    have hS2 : 'S' ∉ (generate_execution_markers pid ts).2 :=
      char_not_in_marker (show 'S' ∉ endMarkerPfx by decide)
        (show Char.isDigit 'S' = false by decide) (show 'S' ≠ '_' by decide) pid ts
    exact not_pyIn_of_missing_char hS hS2
  · have hD : 'D' ∈ (generate_execution_markers pid ts).2 :=
      List.mem_append_left _ (List.mem_append_left _ (show 'D' ∈ endMarkerPfx by decide))
    have hD2 : 'D' ∉ (generate_execution_markers pid ts).1 :=
      char_not_in_marker (show 'D' ∉ startMarkerPfx by decide)
        (show Char.isDigit 'D' = false by decide) (show 'D' ≠ '_' by decide) pid ts
    exact not_pyIn_of_missing_char hD hD2
  · intro h
    exact hij (hf.injective (start_marker_inj pid h))
  · intro h
    exact hij (hf.injective (end_marker_inj pid h))

theorem claim_C6_marker_generation_witness :
    ('_' ∈ (generate_execution_markers 1 2).1 ∧
      shellSafeChar '_' = true) ∧
    (pyIn (generate_execution_markers 1 2).1 (generate_execution_markers 1 2).2 = false) ∧
    (StrictMono (fun n : Nat => n) ∧ (0 : Nat) ≠ 1 ∧
      (generate_execution_markers 1 ((fun n : Nat => n) 0)).1
        ≠ (generate_execution_markers 1 ((fun n : Nat => n) 1)).1) :=
  ⟨⟨by decide, (claim_C6_marker_generation 1).1 2 |>.1 '_' (by decide)⟩,
   ((claim_C6_marker_generation 1).2.1 2).1,
   ⟨strictMono_id, by decide,
    ((claim_C6_marker_generation 1).2.2 (fun n => n) strictMono_id 0 1 (by decide)).1⟩⟩

/-! ## Claim theorems: window naming -/

theorem append_cons_eq (l1 l2 : PyStr) (c : Char) : l1 ++ c :: l2 = (l1 ++ [c]) ++ l2 := by
  rw [List.append_assoc, List.singleton_append]

theorem gen_name_startsWith (custom : Option PyStr) (timestamp rand : Nat) :
    startsWithL (tmuxCliPfx ++ ['-'])
      (generate_window_name custom timestamp rand) = true := by
  cases custom with
  | none =>
    unfold generate_window_name
    rw [append_cons_eq]
    exact startsWithL_self_append _ _
  | some c =>
    simp only [generate_window_name]
    by_cases hc : c ≠ []
    · rw [if_pos hc]
      by_cases hs : startsWithL (tmuxCliPfx ++ ['-']) c = true
      · rw [if_pos hs]
        exact hs
      · rw [if_neg hs, append_cons_eq]
        exact startsWithL_self_append _ _
    · rw [if_neg hc, append_cons_eq]
      exact startsWithL_self_append _ _

theorem startsWith_ne_nil {p s : PyStr} (hp : p ≠ []) (h : startsWithL p s = true) :
    s ≠ [] := by
  rw [startsWithL_iff] at h
  obtain ⟨t, rfl⟩ := h
  simp [hp]

/-- Claim C10: `generate_window_name` always returns a name carrying the
`tmux-cli-` prefix; it is idempotent on custom names (with the same
external timestamp/random inputs); and hence every window created through
`create_window` carries the prefix by which `list_tmux_cli_windows` (and
`cleanup_all_windows`, which iterates it) identifies tool-created windows. -/
theorem claim_C10_window_names :
    (∀ custom timestamp rand,
      startsWithL (tmuxCliPfx ++ ['-'])
        (generate_window_name custom timestamp rand) = true) ∧
    (∀ x timestamp rand,
      generate_window_name (some (generate_window_name (some x) timestamp rand))
          timestamp rand
        = generate_window_name (some x) timestamp rand) ∧
    (∀ session start_command window_name timestamp rand name,
      create_window session start_command window_name timestamp rand = some name →
      ∀ (listing : List TmuxWindow) (w : TmuxWindow), w ∈ listing → w.name = name →
        w ∈ list_tmux_cli_windows listing) := by
  refine ⟨gen_name_startsWith, fun x timestamp rand => ?_, ?_⟩
  · have hpre := gen_name_startsWith (some x) timestamp rand
    have hne : generate_window_name (some x) timestamp rand ≠ [] :=
      startsWith_ne_nil (by decide) hpre
    conv_lhs => rw [generate_window_name]
    rw [if_pos hne, if_pos hpre]
  · intro session start_command window_name timestamp rand name hcreate listing w hmem hname
    have hn : name = generate_window_name window_name timestamp rand := by
      cases session with
      | none => cases hcreate
      | some s =>
        cases start_command with
        | none => cases hcreate; rfl
        | some c => cases hcreate; rfl
    unfold list_tmux_cli_windows
    rw [List.mem_filter]
    refine ⟨hmem, ?_⟩
    rw [hname, hn]
    exact gen_name_startsWith window_name timestamp rand

theorem claim_C10_window_names_witness :
    (create_window (some ['s']) none (some ['w']) 1 2
        = some ['t', 'm', 'u', 'x', '-', 'c', 'l', 'i', '-', 'w'] ∧
      (⟨['t', 'm', 'u', 'x', '-', 'c', 'l', 'i', '-', 'w'], ['@', '1'], 0⟩ : TmuxWindow) ∈
        ([⟨['t', 'm', 'u', 'x', '-', 'c', 'l', 'i', '-', 'w'], ['@', '1'], 0⟩] :
          List TmuxWindow)) ∧
    (⟨['t', 'm', 'u', 'x', '-', 'c', 'l', 'i', '-', 'w'], ['@', '1'], 0⟩ : TmuxWindow) ∈
      list_tmux_cli_windows
        [⟨['t', 'm', 'u', 'x', '-', 'c', 'l', 'i', '-', 'w'], ['@', '1'], 0⟩] :=
  ⟨⟨by decide, by decide⟩,
   claim_C10_window_names.2.2 (some ['s']) none (some ['w']) 1 2
     ['t', 'm', 'u', 'x', '-', 'c', 'l', 'i', '-', 'w'] (by decide)
     [⟨['t', 'm', 'u', 'x', '-', 'c', 'l', 'i', '-', 'w'], ['@', '1'], 0⟩]
     ⟨['t', 'm', 'u', 'x', '-', 'c', 'l', 'i', '-', 'w'], ['@', '1'], 0⟩
     (by decide) (by decide)⟩

/-! ## Claim theorems: target resolution -/

/-- Claim C8 counterexample: with an empty current listing, the claimed
resolution ("a bare small integer is expanded via the backend's current
listing to the entry at that index, otherwise resolution fails") would
fail on `"0"`, but `resolve_window_identifier` never consults the listing
for digit identifiers and returns `"s:0"` anyway. -/
theorem claim_C8_counterexample :
    resolve_window_identifier (some ['s']) [] ['0'] = some ['s', ':', '0'] ∧
    resolveSpecOrder (some ['s']) [] ['0'] = none :=
  ⟨by decide, by decide⟩

/-- Claim C8 as amended: `@`-ids and identifiers containing `:` pass
through unchanged; without a session the remaining shapes fail; a name
exact-matching the listing resolves to `session:name`; a digit identifier
with no name match resolves to `session:digits` for any listing — the
listing is never consulted for digits, so out-of-range indices still
resolve — and name matching is tried before the digit rule; everything
else fails explicitly with no default target substituted. -/
theorem claim_C8_amended :
    (∀ session listing identifier, identifier ≠ [] →
      startsWithL ['@'] identifier = true →
      resolve_window_identifier session listing identifier = some identifier) ∧
    (∀ session listing identifier, identifier ≠ [] →
      startsWithL ['@'] identifier = false →
      pyIn [':'] identifier = true →
      resolve_window_identifier session listing identifier = some identifier) ∧
    (∀ listing identifier, startsWithL ['@'] identifier = false →
      pyIn [':'] identifier = false →
      resolve_window_identifier none listing identifier = none) ∧
    (∀ sess listing identifier w, identifier ≠ [] →
      startsWithL ['@'] identifier = false →
      pyIn [':'] identifier = false →
      listing.find? (fun v => v.name == identifier) = some w →
      resolve_window_identifier (some sess) listing identifier
        = some (sess ++ ':' :: w.name)) ∧
    (∀ sess listing identifier, identifier ≠ [] →
      startsWithL ['@'] identifier = false →
      pyIn [':'] identifier = false →
      listing.find? (fun v => v.name == identifier) = none →
      pyIsDigit identifier = true →
      resolve_window_identifier (some sess) listing identifier
        = some (sess ++ ':' :: identifier)) ∧
    (∀ sess listing identifier, identifier ≠ [] →
      startsWithL ['@'] identifier = false →
      pyIn [':'] identifier = false →
      listing.find? (fun v => v.name == identifier) = none →
      pyIsDigit identifier = false →
      resolve_window_identifier (some sess) listing identifier = none) := by
  refine ⟨?_, ?_, ?_, ?_, ?_, ?_⟩
  · intro session listing identifier h0 h1
    rw [resolve_window_identifier.eq_def, if_neg h0, if_pos h1]
  · intro session listing identifier h0 h1 h2
    rw [resolve_window_identifier.eq_def, if_neg h0, if_neg (by simp [h1]), if_pos h2]
  · intro listing identifier h1 h2
    by_cases h0 : identifier = []
    · rw [resolve_window_identifier.eq_def, if_pos h0]
    · rw [resolve_window_identifier.eq_def, if_neg h0, if_neg (by simp [h1]),
        if_neg (by simp [h2])]
  · intro sess listing identifier w h0 h1 h2 hfind
    rw [resolve_window_identifier.eq_def, if_neg h0, if_neg (by simp [h1]),
      if_neg (by simp [h2])]
    simp only [hfind]
  · intro sess listing identifier h0 h1 h2 hfind hdig
    rw [resolve_window_identifier.eq_def, if_neg h0, if_neg (by simp [h1]),
      if_neg (by simp [h2])]
    simp only [hfind, if_pos hdig]
  · intro sess listing identifier h0 h1 h2 hfind hdig
    rw [resolve_window_identifier.eq_def, if_neg h0, if_neg (by simp [h1]),
      if_neg (by simp [h2])]
    simp only [hfind, hdig, if_neg]
    simp

theorem claim_C8_amended_witness :
    (resolve_window_identifier (some ['s']) [] ['@', '7'] = some ['@', '7']) ∧
    (resolve_window_identifier (some ['s']) [] ['a', ':', 'b'] = some ['a', ':', 'b']) ∧
    (resolve_window_identifier none [] ['w'] = none) ∧
    (resolve_window_identifier (some ['s']) [⟨['w'], ['@', '1'], 0⟩] ['w']
      = some (['s'] ++ ':' :: ['w'])) ∧
    (resolve_window_identifier (some ['s']) [⟨['w'], ['@', '1'], 0⟩] ['9']
      = some (['s'] ++ ':' :: ['9'])) ∧
    (resolve_window_identifier (some ['s']) [⟨['w'], ['@', '1'], 0⟩] ['z'] = none) :=
  ⟨claim_C8_amended.1 (some ['s']) [] ['@', '7'] (by decide) (by decide),
   claim_C8_amended.2.1 (some ['s']) [] ['a', ':', 'b'] (by decide) (by decide) (by decide),
   claim_C8_amended.2.2.1 [] ['w'] (by decide) (by decide),
   claim_C8_amended.2.2.2.1 ['s'] [⟨['w'], ['@', '1'], 0⟩] ['w'] ⟨['w'], ['@', '1'], 0⟩
     (by decide) (by decide) (by decide) (by decide),
   claim_C8_amended.2.2.2.2.1 ['s'] [⟨['w'], ['@', '1'], 0⟩] ['9']
     (by decide) (by decide) (by decide) (by decide) (by decide),
   claim_C8_amended.2.2.2.2.2 ['s'] [⟨['w'], ['@', '1'], 0⟩] ['z']
     (by decide) (by decide) (by decide) (by decide) (by decide)⟩

/-! ## Claim theorems: kill and idle -/

/-- Claim C3 evaluation at the failing input (code bug): `kill_window`
invoked on the window the caller's own process runs in (`@1`, equal to
`ownWindowId`) raises nothing and carries the kill out — the caller's own
window is removed from the session — where the spec and the repository's
own tests (`test_kill_pane_self_protection`, expecting
`ValueError("Cannot kill own pane")`) require an explicit rejection that
leaves the caller's window alive. -/
theorem claim_C3_kill_own_window :
    kill_window ⟨none, none⟩
        ⟨some ['s'],
         [⟨['m', 'a', 'i', 'n'], ['@', '1'], 0⟩,
          ⟨['t', 'm', 'u', 'x', '-', 'c', 'l', 'i', '-', 'w'], ['@', '2'], 1⟩],
         ['@', '1']⟩
        (some ['@', '1'])
      = some (⟨none, none⟩,
          ⟨some ['s'],
           [⟨['t', 'm', 'u', 'x', '-', 'c', 'l', 'i', '-', 'w'], ['@', '2'], 1⟩],
           ['@', '1']⟩) ∧
    (⟨['m', 'a', 'i', 'n'], ['@', '1'], 0⟩ : TmuxWindow) ∉
      (⟨some ['s'],
        [⟨['t', 'm', 'u', 'x', '-', 'c', 'l', 'i', '-', 'w'], ['@', '2'], 1⟩],
        ['@', '1']⟩ : TmuxWorld).windows :=
  ⟨by decide, by decide⟩

/-- Claim C7: `wait_for_idle` returns `True` only at a poll step by which
the hash of the captured content has remained unchanged across an observed
span of at least `idle_time` seconds (never before such stability); it
returns `False` only when a configured nonzero timeout has been exceeded;
and with no timeout configured it can only return `True` (or keep
polling).  The hashes are md5 hexdigests, hence never the empty string the
loop starts from. -/
theorem claim_C7_idle_detection (timeout : Option ℚ)
    (startTime lastChange0 idle_time : ℚ) (obs : List IdleObs)
    (hhash : ∀ o ∈ obs, o.hash ≠ []) :
    (wait_for_idle timeout startTime lastChange0 idle_time obs = some true →
      ∃ j k, j ≤ k ∧ k < obs.length ∧
        (∀ i, j ≤ i → i ≤ k → (obs.getD i obsD).hash = (obs.getD j obsD).hash) ∧
        (obs.getD k obsD).tNow - (obs.getD j obsD).tNow ≥ idle_time) ∧
    (wait_for_idle timeout startTime lastChange0 idle_time obs = some false →
      ∃ v, timeout = some v ∧ v ≠ 0 ∧
        ∃ k, k < obs.length ∧ (obs.getD k obsD).tChk - startTime > v) ∧
    (timeout = none →
      wait_for_idle timeout startTime lastChange0 idle_time obs ≠ some false) := by
  refine ⟨?_, ?_, ?_⟩
  · intro h
    rcases wait_for_idle_run_true h with hleft | ⟨k, hk, hall, _⟩
    · exact hleft
    · exfalso
      have h0 : (obs.getD 0 obsD).hash = [] := hall 0 (by omega)
      have hlen : 0 < obs.length := by omega
      rw [List.getD_eq_getElem obs obsD hlen] at h0
      exact hhash obs[0] (List.getElem_mem hlen) h0
  · intro h
    exact wait_for_idle_run_false h
  · intro hnone h
    obtain ⟨v, hv, hv0, _⟩ := wait_for_idle_run_false h
    rw [hnone] at hv
    cases hv

/-- Claim C9: with `timeout=0` the timeout branch is unreachable — Python
treats `0` as falsy in `if timeout and ...` — so `wait_for_idle` can never
return `False` and keeps polling until idleness is observed. -/
theorem claim_C9_zero_timeout (startTime lastChange0 idle_time : ℚ)
    (obs : List IdleObs) :
    wait_for_idle (some 0) startTime lastChange0 idle_time obs ≠ some false := by
  intro h
  obtain ⟨v, hv, hv0, _⟩ := wait_for_idle_run_false h
  cases hv
  exact hv0 rfl

theorem claim_C9_zero_timeout_witness :
    wait_for_idle (some 0) 0 0 1 [⟨5, 5, ['a']⟩] ≠ some false :=
  claim_C9_zero_timeout 0 0 1 [⟨5, 5, ['a']⟩]

theorem claim_C7_idle_detection_witness :
    ((∀ o ∈ [(⟨0, 0, ['a']⟩ : IdleObs), ⟨3, 3, ['a']⟩], o.hash ≠ []) ∧
      wait_for_idle none 0 0 2 [⟨0, 0, ['a']⟩, ⟨3, 3, ['a']⟩] = some true) ∧
    (∃ j k, j ≤ k ∧ k < ([(⟨0, 0, ['a']⟩ : IdleObs), ⟨3, 3, ['a']⟩]).length ∧
      (∀ i, j ≤ i → i ≤ k →
        (([(⟨0, 0, ['a']⟩ : IdleObs), ⟨3, 3, ['a']⟩]).getD i obsD).hash
          = (([(⟨0, 0, ['a']⟩ : IdleObs), ⟨3, 3, ['a']⟩]).getD j obsD).hash) ∧
      (([(⟨0, 0, ['a']⟩ : IdleObs), ⟨3, 3, ['a']⟩]).getD k obsD).tNow
        - (([(⟨0, 0, ['a']⟩ : IdleObs), ⟨3, 3, ['a']⟩]).getD j obsD).tNow ≥ 2) :=
  ⟨⟨by decide,
    by norm_num [wait_for_idle, wait_for_idle_run, wait_for_idle_step, timeoutExpired]⟩,
   (claim_C7_idle_detection none 0 0 2 [⟨0, 0, ['a']⟩, ⟨3, 3, ['a']⟩] (by decide)).1
     (by norm_num [wait_for_idle, wait_for_idle_run, wait_for_idle_step, timeoutExpired])⟩
